import Mathlib

/-!
Verification of the linux-do-keyword-monitor fetch-and-notify pipeline.

This file gives a shallow embedding, in Lean, of the parts of the Python
source that the verified properties talk about:

* `src/linuxdo_monitor/database.py` — the SQLite store (`posts`,
  `notifications`, `blocked_users` tables and the operations
  `post_exists`, `add_post`, `add_notification`, `notification_exists`,
  `notification_exists_for_post`, `mark_user_blocked`).  Tables are
  modelled as lists of rows; a SQLite `IntegrityError` on a primary key
  is modelled as the presence test on the key columns.
* `src/linuxdo_monitor/matcher/keyword.py` — `is_regex_pattern`,
  `validate_regex` and `KeywordMatcher.match`.  The Python `re` module
  is abstracted by oracles: `compiles` says whether `re.compile`
  succeeds, and `search` gives the result of `pattern.search(title)`
  (`none` models a raised exception).  The dangerous-pattern scan of
  `validate_regex` is implemented concretely, because it is a plain
  substring/shape scan.
* `src/linuxdo_monitor/app.py` — the planning part of
  `Application.fetch_and_notify` (lines 422-481), `Application._send_batch`
  together with `TelegramBot._send_with_retry` from `bot/bot.py`,
  `Application._check_cookie_task`, and the restart backoff of
  `MultiForumApplication._run_single_app`.
* `src/linuxdo_monitor/source/discourse.py` — the error propagation
  skeleton of `_fetch_via_flaresolverr` and `_fetch_via_drissionpage`,
  with the network abstracted by the per-attempt results.
-/

namespace LinuxdoMonitor

/-- A forum post, as produced by the sources
(`models.py` `Post`, plus the `author` field that `DiscourseSource`
sets and `app.py` reads via `getattr(post, 'author', None)`).
`pubDate` carries `pub_date.isoformat()`. -/
structure Post where
  id : String
  title : String
  link : String
  pubDate : String
  author : Option String
deriving DecidableEq, Repr

/-- A row of the `posts` table (`database.py` lines 49-57,
primary key `(id, forum)`). -/
structure PostRow where
  id : String
  forum : String
  title : String
  link : String
  pubDate : String
  author : Option String
deriving DecidableEq, Repr

/-- A row of the `notifications` table (`database.py` lines 59-66,
primary key `(chat_id, post_id, keyword, forum)`; `created_at` is
irrelevant to every property and omitted). -/
structure NotifRow where
  chatId : Int
  postId : String
  keyword : String
  forum : String
deriving DecidableEq, Repr

/-- The part of the SQLite database the pipeline writes to. -/
structure DB where
  posts : List PostRow
  notifications : List NotifRow
  blockedUsers : List Int
deriving DecidableEq, Repr

/-- Models `Database.post_exists` (`database.py` lines 217-223). -/
def post_exists (db : DB) (postId forum : String) : Bool :=
  db.posts.any fun r => r.id == postId && r.forum == forum

/-- Models `Database.add_post` (`database.py` lines 204-215): `INSERT` into
`posts`; an `IntegrityError` on the primary key `(id, forum)` yields
`False` and leaves the table unchanged. -/
def add_post (db : DB) (p : Post) (forum : String) : Bool × DB :=
  if db.posts.any fun r => r.id == p.id && r.forum == forum then
    (false, db)
  else
    (true, { db with
      posts := db.posts ++ [⟨p.id, forum, p.title, p.link, p.pubDate, p.author⟩] })

/-- Models `Database.notification_exists` (`database.py` lines 239-246):
presence of the exact four-tuple. -/
def notification_exists (db : DB) (chatId : Int) (postId keyword forum : String) : Bool :=
  db.notifications.any fun r =>
    r.chatId == chatId && r.postId == postId && r.keyword == keyword && r.forum == forum

/-- Models `Database.notification_exists_for_post` (`database.py` lines 248-255):
any record for `(chat_id, post_id, forum)`, whatever the keyword. -/
def notification_exists_for_post (db : DB) (chatId : Int) (postId forum : String) : Bool :=
  db.notifications.any fun r =>
    r.chatId == chatId && r.postId == postId && r.forum == forum

/-- Models `Database.add_notification` (`database.py` lines 226-237): `INSERT`
into `notifications`; an `IntegrityError` on the primary key
`(chat_id, post_id, keyword, forum)` yields `False` and leaves the
table unchanged. -/
def add_notification (db : DB) (chatId : Int) (postId keyword forum : String) : Bool × DB :=
  if notification_exists db chatId postId keyword forum then
    (false, db)
  else
    (true, { db with notifications := db.notifications ++ [⟨chatId, postId, keyword, forum⟩] })

/-- Models `Database.mark_user_blocked` (`database.py` lines 430-441):
`INSERT OR REPLACE` into `blocked_users`. -/
def mark_user_blocked (db : DB) (chatId : Int) : DB :=
  if db.blockedUsers.contains chatId then db
  else { db with blockedUsers := db.blockedUsers ++ [chatId] }

/-! ## Keyword matcher (`matcher/keyword.py`) -/

/-- The constant `MAX_REGEX_LENGTH` (`keyword.py` line 11). -/
def MAX_REGEX_LENGTH : Nat := 200

def lbrace : Char := Char.ofNat 123

def rbrace : Char := Char.ofNat 125

/-- The regex metacharacters of `is_regex_pattern`
(`keyword.py` line 30). -/
def regexChars : List Char :=
  ['^', '$', '.', '*', '+', '?', lbrace, rbrace, '[', ']', '(', ')', '|', '\\']

/-- Models `is_regex_pattern` (`keyword.py` lines 24-31): the keyword contains
some regex metacharacter. -/
def is_regex_pattern (keyword : String) : Bool :=
  keyword.data.any fun c => regexChars.contains c

/-- Whether `needle` occurs at the head of `hay`. -/
def listStartsWith : List Char → List Char → Bool
  | [], _ => true
  | _ :: _, [] => false
  | a :: as, b :: bs => a == b && listStartsWith as bs

/-- Whether `needle` occurs contiguously somewhere in `hay`
(Python `needle in hay` on strings). -/
def listContainsSub (needle : List Char) : List Char → Bool
  | [] => needle.isEmpty
  | b :: bs => listStartsWith needle (b :: bs) || listContainsSub needle bs

/-- Python `needle in hay` for strings. -/
def strContainsSub (needle hay : String) : Bool :=
  listContainsSub needle.data hay.data

/-- Python `str.lower()`, character-wise case folding. -/
def pyLower (s : String) : String :=
  ⟨s.data.map Char.toLower⟩

/-- The plain matching branch of `KeywordMatcher.match`:
`keyword.lower() in title.lower()` (`keyword.py` lines 100, 103, 106). -/
def substringMatch (keyword title : String) : Bool :=
  strContainsSub (pyLower keyword) (pyLower title)

/-- After the closing `)` and the `{` of a candidate repetition, scan the
digits of `[0-9]+` and then require `,}` (`keyword.py` line 50). -/
def repTail (cs : List Char) : Bool :=
  match cs with
  | a :: b :: _ => a == ',' && b == rbrace
  | _ => false

def repDigits : List Char → Nat → Bool
  | [], _ => false
  | c :: rest, n =>
    if c.isDigit then repDigits rest (n + 1)
    else decide (0 < n) && repTail (c :: rest)

def repBrace (cs : List Char) : Bool :=
  match cs with
  | c :: rest => c == lbrace && repDigits rest 0
  | [] => false

/-- After an opening `(`, scan the chars of `[^)]+` up to the first `)`
and continue with the `{digits,}` tail. -/
def repAfterParen : List Char → Nat → Bool
  | [], _ => false
  | c :: rest, n =>
    if c == ')' then decide (0 < n) && repBrace rest
    else repAfterParen rest (n + 1)

/-- Models `re.search(r'\([^\)]+\)\{[0-9]+,\}', pattern)` of `validate_regex`
(`keyword.py` line 50): the pattern contains a group followed by an
unbounded counted repetition. -/
def hasLargeRepetition : List Char → Bool
  | [] => false
  | c :: rest => (c == '(' && repAfterParen rest 0) || hasLargeRepetition rest

/-- The dangerous-pattern scan of `validate_regex`
(`keyword.py` lines 45-54). -/
def dangerous_pattern (p : String) : Bool :=
  strContainsSub "(.*)+" p || strContainsSub "(.+)+" p ||
  strContainsSub "(.*)*" p || strContainsSub "(.+)*" p ||
  hasLargeRepetition p.data

/-- Models `validate_regex` (`keyword.py` lines 34-61).  `compiles p = none`
models `re.compile(p, re.IGNORECASE)` succeeding, `some e` models
`re.error` with message `e`. -/
def validate_regex (compiles : String → Option String) (p : String) : Bool × Option String :=
  if MAX_REGEX_LENGTH < p.length then
    (false, some "regex too long")
  else if dangerous_pattern p then
    (false, some "dangerous backtracking pattern")
  else
    match compiles p with
    | none => (true, none)
    | some e => (false, some e)

/-- The behaviour of the Python `re` module on a pattern, as seen by
`KeywordMatcher`: whether `re.compile(p, re.IGNORECASE)` succeeds, and
the outcome of `compiled.search(title)` (`none` models the `except`
branch of `keyword.py` lines 97-100, i.e. a raised exception). -/
structure RegexOracle where
  compiles : String → Bool
  search : String → String → Option Bool

/-- Models `KeywordMatcher.match` (`keyword.py` lines 83-106).  The compiled
regex cache affects only performance, not results, and is not modelled. -/
def matcherMatch (o : RegexOracle) (post : Post) (keyword : String) : Bool :=
  if is_regex_pattern keyword then
    if o.compiles keyword then
      match o.search keyword post.title with
      | some b => b
      | none => substringMatch keyword post.title
    else substringMatch keyword post.title
  else substringMatch keyword post.title

/-- Models `KeywordMatcher.find_matching_keywords` (`keyword.py` lines 108-110). -/
def find_matching_keywords (o : RegexOracle) (post : Post) (keywords : List String) : List String :=
  keywords.filter fun kw => matcherMatch o post kw

/-! ## Notification planner (`app.py`, `Application.fetch_and_notify` lines 422-481) -/

/-- One entry of `pending_tasks`: a `(chat_id, post, keyword_or_none)`
tuple (`app.py` line 420).  `keyword = none` is a subscribe-all task;
`some ("@" ++ author)` is an author task (line 457); `some kw` a
keyword task. -/
structure Task where
  chatId : Int
  post : Post
  keyword : Option String
deriving DecidableEq, Repr

/-- The tenant's subscription data, read once per cycle through the
cached getters of `app.py` (lines 414-417 and the per-author /
per-keyword lookups).  The cache layer is read-through and does not
change results, so the lists appear here directly. -/
structure Env where
  oracle : RegexOracle
  keywords : List String
  subscribeAllUsers : List Int
  subscribedAuthors : List String
  authorSubscribers : String → List Int
  keywordSubscribers : String → List Int

/-- The subscribe-all loop (`app.py` lines 434-440): every subscriber is
added to `notified_users`; a task is appended unless a persisted record
exists.  `ex c` is `db.notification_exists_for_post(c, post.id, forum)`. -/
def subAllLoop (ex : Int → Bool) (post : Post) :
    List Int → List Int → List Task → List Int × List Task
  | [], notified, pending => (notified, pending)
  | c :: rest, notified, pending =>
    if ex c then subAllLoop ex post rest (c :: notified) pending
    else subAllLoop ex post rest (c :: notified) (pending ++ [⟨c, post, none⟩])

/-- The shared shape of the author loop (`app.py` lines 447-458) and of
one keyword's subscriber loop (lines 467-480): skip when already in
`notified_users`, skip when in `subscribe_all_set`, absorb into
`notified_users` when a persisted record exists, else append `mk c`. -/
def innerLoop (inSubAll ex : Int → Bool) (mk : Int → Task) :
    List Int → List Int → List Task → List Int × List Task
  | [], notified, pending => (notified, pending)
  | c :: rest, notified, pending =>
    if notified.contains c then innerLoop inSubAll ex mk rest notified pending
    else if inSubAll c then innerLoop inSubAll ex mk rest notified pending
    else if ex c then innerLoop inSubAll ex mk rest (c :: notified) pending
    else innerLoop inSubAll ex mk rest (c :: notified) (pending ++ [mk c])

/-- The outer keyword loop (`app.py` lines 464-480): one `innerLoop`
per matched keyword. -/
def kwLoops (inSubAll ex : Int → Bool) (subs : String → List Int) (post : Post) :
    List String → List Int → List Task → List Int × List Task
  | [], notified, pending => (notified, pending)
  | kw :: rest, notified, pending =>
    let r := innerLoop inSubAll ex (fun c => ⟨c, post, some kw⟩) (subs kw) notified pending
    kwLoops inSubAll ex subs post rest r.1 r.2

/-- The author stage (`app.py` lines 443-458): guarded by
`if post.author and subscribed_authors:` (Python truthiness: a missing
or empty author skips the stage) and by the case-insensitive lookup of
the author in the subscribed-author list. -/
def authorStage (env : Env) (inSubAll ex : Int → Bool) (post : Post)
    (s : List Int × List Task) : List Int × List Task :=
  match post.author with
  | none => s
  | some auth =>
    if auth ≠ "" ∧ env.subscribedAuthors ≠ [] then
      if (env.subscribedAuthors.map pyLower).contains (pyLower auth) then
        innerLoop inSubAll ex (fun c => ⟨c, post, some ("@" ++ auth)⟩)
          (env.authorSubscribers (pyLower auth)) s.1 s.2
      else s
    else s

/-- The keyword stage (`app.py` lines 461-480), guarded by
`if keywords:`. -/
def keywordStage (env : Env) (inSubAll ex : Int → Bool) (post : Post)
    (s : List Int × List Task) : List Int × List Task :=
  if env.keywords ≠ [] then
    kwLoops inSubAll ex env.keywordSubscribers post
      (find_matching_keywords env.oracle post env.keywords) s.1 s.2
  else s

/-- Planning for one fetched post (`app.py` lines 422-480): skip if the
post is already persisted, else persist it and run the three collection
stages starting from an empty `notified_users` set. -/
def processPost (env : Env) (forum : String) (db : DB) (post : Post)
    (pending : List Task) : DB × List Task :=
  if post_exists db post.id forum then (db, pending)
  else
    let db1 := (add_post db post forum).2
    let ex := fun c => notification_exists_for_post db1 c post.id forum
    let inSubAll := fun c => env.subscribeAllUsers.contains c
    let s1 := subAllLoop ex post env.subscribeAllUsers [] pending
    let s2 := authorStage env inSubAll ex post s1
    let s3 := keywordStage env inSubAll ex post s2
    (db1, s3.2)

/-- The planning phase of `fetch_and_notify` over the whole fetched
snapshot (`app.py` lines 422-481): fold `processPost` over the posts,
accumulating `pending_tasks`. -/
def fetch_and_notify_plan (env : Env) (forum : String) :
    DB → List Post → List Task → DB × List Task
  | db, [], pending => (db, pending)
  | db, p :: rest, pending =>
    let r := processPost env forum db p pending
    fetch_and_notify_plan env forum r.1 rest r.2

/-! ## Batch dispatcher (`app.py` `_send_batch` lines 365-402,
`bot/bot.py` `_send_with_retry` lines 77-113) -/

/-- The outcome of one `bot.send_message` attempt, as classified by the
`except` arms of `_send_with_retry`: success, `Forbidden` (recipient
blocked the bot), `TimedOut`/`NetworkError` (retried), any other
`TelegramError` (terminal). -/
inductive AttemptOutcome where
  | ok
  | forbidden
  | timeoutNet
  | telegramErr
deriving DecidableEq, Repr

/-- Models `TelegramBot._send_with_retry` (`bot.py` lines 77-113) applied to
the list of successive attempt outcomes the platform would return
(the caller truncates it to `MAX_RETRIES = 3`): first success wins;
`Forbidden` marks the user blocked and stops; a timeout/network error
falls through to the next attempt; any other error stops; an exhausted
list means all retries failed. -/
def send_with_retry (outs : List AttemptOutcome) (chatId : Int) (db : DB) : Bool × DB :=
  match outs with
  | [] => (false, db)
  | .ok :: _ => (true, db)
  | .forbidden :: _ => (false, mark_user_blocked db chatId)
  | .telegramErr :: _ => (false, db)
  | .timeoutNet :: rest => send_with_retry rest chatId db

/-- The pure success/failure verdict of `_send_with_retry` on a list of
attempt outcomes (the `db` side effect only marks blocked users). -/
def retrySucceeds : List AttemptOutcome → Bool
  | [] => false
  | .ok :: _ => true
  | .forbidden :: _ => false
  | .telegramErr :: _ => false
  | .timeoutNet :: rest => retrySucceeds rest

/-- Models `send_one` inside `_send_batch` (`app.py` lines 377-393): send with
retry (at most `MAX_RETRIES = 3` attempts), and only on success record
the notification with the task's keyword, or `"__ALL__"` for a
subscribe-all task.  `behavior t` is the platform's attempt-outcome
sequence for task `t`. -/
def send_one (behavior : Task → List AttemptOutcome) (forum : String)
    (db : DB) (t : Task) : Bool × DB :=
  let r := send_with_retry ((behavior t).take 3) t.chatId db
  if r.1 then
    (true, (add_notification r.2 t.chatId t.post.id (t.keyword.getD "__ALL__") forum).2)
  else (false, r.2)

/-- Models `Application._send_batch` (`app.py` lines 365-402): send every task
and count the successes.  `asyncio.gather` interleaves the sends, but
each task's send and its recording are independent of the others', so
the batch is modelled sequentially. -/
def send_batch (behavior : Task → List AttemptOutcome) (forum : String) :
    DB → List Task → Nat × DB
  | db, [] => (0, db)
  | db, t :: rest =>
    let r := send_one behavior forum db t
    let r2 := send_batch behavior forum r.2 rest
    ((if r.1 then 1 else 0) + r2.1, r2.2)

/-! ## Credential-health job (`app.py` `_check_cookie_task` lines 258-308) -/

/-- The classification of one `test_cookie` probe
(`web_flask.py` `test_cookie`): valid, invalid cookie, or a
service/infrastructure error. -/
inductive CookieCheck where
  | valid
  | invalidCookie
  | serviceError
deriving DecidableEq, Repr

/-- An admin alert sent by the credential-health job:
`cookieInvalid round copy` is the `copy`-th (1..3) message of round
`round` (`app.py` lines 293-301), `cookieRecovered` the reassurance
message (line 307). -/
inductive AdminAlert where
  | cookieInvalid (round : Nat) (copy : Nat)
  | cookieRecovered
deriving DecidableEq, Repr

/-- The probe loop of `_check_cookie_task` (`app.py` lines 263-278): up
to three probes, stopping at the first valid one; returns the failure
count and the last examined result. -/
def runProbes (probes : Nat → CookieCheck) : Nat × CookieCheck :=
  match probes 0 with
  | .valid => (0, .valid)
  | _ =>
    match probes 1 with
    | .valid => (1, .valid)
    | _ =>
      match probes 2 with
      | .valid => (2, .valid)
      | r2 => (3, r2)

/-- Models `Application._check_cookie_task` (`app.py` lines 258-308), as a
function of the probe outcomes and the current `_cookie_fail_count`;
returns the new count and the alerts sent, in order.  On three
consecutive probe failures: a service error only logs; a cookie
failure increments the round counter and sends three alerts.  On a
successful probe: a recovery alert if some round had failed before. -/
def check_cookie_task (probes : Nat → CookieCheck) (failCount : Nat) :
    Nat × List AdminAlert :=
  let r := runProbes probes
  if r.1 = 3 then
    match r.2 with
    | .serviceError => (failCount, [])
    | _ =>
      (failCount + 1,
       [.cookieInvalid (failCount + 1) 1,
        .cookieInvalid (failCount + 1) 2,
        .cookieInvalid (failCount + 1) 3])
  else
    if 0 < failCount then (0, [.cookieRecovered]) else (failCount, [])

/-! ## Supervisor restart backoff
(`app.py` `MultiForumApplication._run_single_app` lines 721-757) -/

/-- The wait (seconds) before the `(n+1)`-th restart: `restart_delay`
starts at 5 (line 723) and after each wait is doubled and capped at
`max_restart_delay = 300` (line 757). -/
def restartDelay : Nat → Nat
  | 0 => 5
  | n + 1 => min (restartDelay n * 2) 300

/-! ## Authenticated-source fallback chain (`source/discourse.py`) -/

/-- Error classes a fetch attempt can raise, keeping the
credential-versus-network distinction of the spec's taxonomy.
`http403` is a `403` response (credential / Cloudflare rejection). -/
inductive FetchErr where
  | credential
  | network
  | http403
  | other
deriving DecidableEq, Repr

/-- Models `DiscourseSource._fetch_via_flaresolverr` (`discourse.py` lines
142-214) with the network abstracted: `a1 a2 a3` are the results of the
three FlareSolverr attempts (`max_retries = 3`; session destruction
between attempts affects no returned value), `rss` the result of the
degraded RSS fallback.  The first successful attempt returns; if all
attempts fail, the RSS fallback is tried, and if it also fails, the
function re-raises `last_error` — the error of the final attempt. -/
def fetch_via_flaresolverr {P : Type} (a1 a2 a3 rss : Except FetchErr P) : Except FetchErr P :=
  match a1 with
  | .ok p => .ok p
  | .error _ =>
    match a2 with
    | .ok p => .ok p
    | .error _ =>
      match a3 with
      | .ok p => .ok p
      | .error e3 =>
        match rss with
        | .ok p => .ok p
        | .error _ => .error e3

/-- Whether `_fetch_direct` / `_fetch_via_drissionpage` classify an
exception as a 403 (`discourse.py` lines 243, 274). -/
def is403 : FetchErr → Bool
  | .http403 => true
  | _ => false

/-- The refresh loop of `_fetch_via_drissionpage` (`discourse.py` lines
281-292): each round either fails to refresh the cookie (`none`,
`last_error` unchanged) or refreshes and retries the direct fetch
(`some r`).  Returns the first successful fetch, or the final
`last_error`. -/
def vdRounds {P : Type} : List (Option (Except FetchErr P)) → FetchErr → Option P × FetchErr
  | [], last => (none, last)
  | none :: rest, last => vdRounds rest last
  | some (.ok p) :: _, last => (some p, last)
  | some (.error e) :: rest, _ => vdRounds rest e

/-- Models `DiscourseSource._fetch_via_drissionpage` (`discourse.py` lines
264-302) with the network abstracted: `d0` is the initial direct fetch
(no refresh); a non-403 failure is re-raised immediately; a 403 enters
up to three refresh rounds; then the RSS fallback; if it also fails,
`last_error` — the most recent direct-fetch error — is re-raised. -/
def fetch_via_drissionpage {P : Type} (d0 : Except FetchErr P)
    (rounds : List (Option (Except FetchErr P))) (rss : Except FetchErr P) :
    Except FetchErr P :=
  match d0 with
  | .ok p => .ok p
  | .error e0 =>
    if is403 e0 then
      match vdRounds rounds e0 with
      | (some p, _) => .ok p
      | (none, last) =>
        match rss with
        | .ok p => .ok p
        | .error _ => .error last
    else .error e0

/-- The notification record a successful send of task `t` creates
(`app.py` line 389): the task's keyword, or `"__ALL__"` for a
subscribe-all task. -/
def task_record (forum : String) (t : Task) : NotifRow :=
  ⟨t.chatId, t.post.id, t.keyword.getD "__ALL__", forum⟩

/-- The tasks of `pending_tasks` addressed to one subscriber. -/
def tasksFor (chat : Int) (ts : List Task) : List Task :=
  ts.filter fun t => t.chatId == chat

/-- How many tasks of `pending_tasks` address the pair
`(chat, post id)`. -/
def countFor (chat : Int) (pid : String) (ts : List Task) : Nat :=
  ((tasksFor chat ts).filter fun t => t.post.id == pid).length

/-- The single task the keyword loops produce for a subscriber that is
eligible when the keyword stage starts: the task of the first matched
keyword whose subscriber list holds the subscriber. -/
def firstMatchTask (post : Post) (subs : String → List Int) (chat : Int)
    (l : List String) : List Task :=
  match l.find? (fun kw => (subs kw).contains chat) with
  | some kw => [⟨chat, post, some kw⟩]
  | none => []

/-! ## Theorems -/

/-- C7: For a tenant whose supervised run fails on every attempt, the
supervisor's wait before the `(k+1)`-th restart is
`min (5 * 2 ^ k) 300` seconds, i.e. the doubling-with-cap schedule
5, 10, 20, 40, 80, 160, 300, 300, ... starting at 5 seconds. -/
theorem c7_restart_backoff_schedule (k : Nat) :
    restartDelay k = min (5 * 2 ^ k) 300 := by
  induction k with
  | zero => rfl
  | succ n ih =>
    rw [restartDelay, ih]
    have h2 : 5 * 2 ^ (n + 1) = 5 * 2 ^ n * 2 := by ring
    rw [h2]
    generalize 5 * 2 ^ n = a
    omega

/-- C8: `validate_regex` rejects every pattern longer than
`MAX_REGEX_LENGTH = 200` characters and every pattern containing one of
the catastrophic-backtracking shapes `(.*)+`, `(.+)+`, `(.*)*`, `(.+)*`
or a large-repetition group, whatever the outcome of regex
compilation. -/
theorem c8_validate_regex_rejects (compiles : String → Option String) (p : String)
    (h : MAX_REGEX_LENGTH < p.length ∨
      strContainsSub "(.*)+" p = true ∨ strContainsSub "(.+)+" p = true ∨
      strContainsSub "(.*)*" p = true ∨ strContainsSub "(.+)*" p = true ∨
      hasLargeRepetition p.data = true) :
    (validate_regex compiles p).1 = false := by
  unfold validate_regex
  by_cases hl : MAX_REGEX_LENGTH < p.length
  · rw [if_pos hl]
  · have hd : dangerous_pattern p = true := by
      unfold dangerous_pattern
      rcases h with h | h | h | h | h | h
      · exact absurd h hl
      all_goals simp [h]
    rw [if_neg hl, if_pos hd]

/-- Witness for C8 at the concrete pattern `"(.*)+foo"` and an oracle
under which every pattern compiles. -/
theorem c8_validate_regex_rejects_witness :
    (MAX_REGEX_LENGTH < ("(.*)+foo" : String).length ∨
      strContainsSub "(.*)+" "(.*)+foo" = true ∨ strContainsSub "(.+)+" "(.*)+foo" = true ∨
      strContainsSub "(.*)*" "(.*)+foo" = true ∨ strContainsSub "(.+)*" "(.*)+foo" = true ∨
      hasLargeRepetition ("(.*)+foo" : String).data = true) ∧
    (validate_regex (fun _ => none) "(.*)+foo").1 = false :=
  ⟨by decide, c8_validate_regex_rejects (fun _ => none) "(.*)+foo" (by decide)⟩

/-- C9: `KeywordMatcher.match` is a total boolean function; a keyword
without regex metacharacters is evaluated as the case-insensitive
substring test, and so is a keyword whose regex fails to compile or
whose search raises — no error propagates. -/
theorem c9_matcher_match_degrades (o : RegexOracle) (post : Post) (kw : String) :
    (is_regex_pattern kw = false → matcherMatch o post kw = substringMatch kw post.title) ∧
    (o.compiles kw = false → matcherMatch o post kw = substringMatch kw post.title) ∧
    (o.search kw post.title = none → matcherMatch o post kw = substringMatch kw post.title) := by
  refine ⟨fun h => ?_, fun h => ?_, fun h => ?_⟩
  · simp [matcherMatch, h]
  · by_cases hr : is_regex_pattern kw <;> simp [matcherMatch, hr, h]
  · by_cases hr : is_regex_pattern kw
    · by_cases hc : o.compiles kw <;> simp [matcherMatch, hr, hc, h]
    · simp [matcherMatch, hr]

/-- Witness for C9 at a concrete non-regex keyword. -/
theorem c9_matcher_match_degrades_witness :
    matcherMatch ⟨fun _ => true, fun _ _ => some true⟩ ⟨"1", "Hello World", "l", "d", none⟩ "hello"
      = substringMatch "hello" "Hello World" :=
  (c9_matcher_match_degrades ⟨fun _ => true, fun _ _ => some true⟩
    ⟨"1", "Hello World", "l", "d", none⟩ "hello").1 (by decide)

/-- The verdict of `add_notification` is the negation of the four-tuple
presence test. -/
theorem add_notification_fst (db : DB) (chat : Int) (pid kw forum : String) :
    (add_notification db chat pid kw forum).1 = !(notification_exists db chat pid kw forum) := by
  by_cases h : notification_exists db chat pid kw forum <;> simp [add_notification, h]

/-- C10: `add_notification` inserts and returns `True` exactly when no
row with the identical four-tuple exists; on `False` the table is
unchanged; and a successful insert for reason `k1` does not prevent a
subsequent insert for a different reason `k2` on the same
`(chat, post, forum)` — even though `notification_exists_for_post` is
already true for the pair — so storage uniqueness is per reason tag. -/
theorem c10_add_notification_semantics (db : DB) (chat : Int) (pid k1 k2 forum : String) :
    ((add_notification db chat pid k1 forum).1 = true ↔
        notification_exists db chat pid k1 forum = false) ∧
    ((add_notification db chat pid k1 forum).1 = false →
        (add_notification db chat pid k1 forum).2 = db) ∧
    ((add_notification db chat pid k1 forum).1 = true →
        (add_notification db chat pid k1 forum).2.notifications
            = db.notifications ++ [⟨chat, pid, k1, forum⟩] ∧
        notification_exists_for_post (add_notification db chat pid k1 forum).2 chat pid forum
            = true) ∧
    (k1 ≠ k2 → notification_exists db chat pid k2 forum = false →
        (add_notification (add_notification db chat pid k1 forum).2 chat pid k2 forum).1
            = true) := by
  by_cases h : notification_exists db chat pid k1 forum
  · refine ⟨by simp [add_notification, h], fun _ => by simp [add_notification, h], ?_, ?_⟩
    · intro hT
      exfalso
      simp [add_notification, h] at hT
    · intro hne h2
      simp [add_notification, h, h2]
  · refine ⟨by simp [add_notification, h], ?_, fun _ => ⟨by simp [add_notification, h], ?_⟩, ?_⟩
    · intro hF
      exfalso
      simp [add_notification, h] at hF
    · simp [add_notification, notification_exists_for_post, h, List.any_append]
    · intro hne h2
      have hex2 : notification_exists (add_notification db chat pid k1 forum).2 chat pid k2 forum
          = false := by
        simp only [add_notification, if_neg h]
        simp only [notification_exists, List.any_append] at h2 ⊢
        simp [h2, hne]
      rw [add_notification_fst, hex2]
      rfl

/-- Witness for C10 starting from an empty store with reasons
`"k1" ≠ "k2"`. -/
theorem c10_add_notification_semantics_witness :
    ("k1" : String) ≠ "k2" ∧
    notification_exists ⟨[], [], []⟩ 1 "p" "k2" "f" = false ∧
    (add_notification (add_notification ⟨[], [], []⟩ 1 "p" "k1" "f").2 1 "p" "k2" "f").1 = true :=
  ⟨by decide, by decide,
    (c10_add_notification_semantics ⟨[], [], []⟩ 1 "p" "k1" "k2" "f").2.2.2 (by decide) (by decide)⟩

/-- C6 counterexample: with `_cookie_fail_count = 0`, a single round of
three confirmed cookie-invalid probes already sends three alerts
(annotated round 1), although round 1 is not a multiple of 5 — the
claim predicts no alert on rounds 1-4. -/
theorem c6_counterexample_alerts_on_round_one :
    (check_cookie_task (fun _ => CookieCheck.invalidCookie) 0).1 = 1 ∧
    (check_cookie_task (fun _ => CookieCheck.invalidCookie) 0).2 =
      [AdminAlert.cookieInvalid 1 1, AdminAlert.cookieInvalid 1 2, AdminAlert.cookieInvalid 1 3] ∧
    (check_cookie_task (fun _ => CookieCheck.invalidCookie) 0).1 % 5 ≠ 0 := by
  refine ⟨rfl, rfl, by decide⟩

/-- When every probe fails, the probe loop reports three failures and
the last probe's result. -/
theorem runProbes_all_fail (probes : Nat → CookieCheck)
    (h : ∀ i, i < 3 → probes i ≠ CookieCheck.valid) :
    runProbes probes = (3, probes 2) := by
  have h0 := h 0 (by omega)
  have h1 := h 1 (by omega)
  have h2 := h 2 (by omega)
  unfold runProbes
  cases hp0 : probes 0 <;> cases hp1 : probes 1 <;> cases hp2 : probes 2 <;>
    first
      | rfl
      | exact absurd hp0 h0
      | exact absurd hp1 h1
      | exact absurd hp2 h2

/-- When some probe succeeds, the probe loop reports fewer than three
failures. -/
theorem runProbes_fst_ne_three (probes : Nat → CookieCheck) (i : Nat) (hi : i < 3)
    (hv : probes i = CookieCheck.valid) : (runProbes probes).1 ≠ 3 := by
  unfold runProbes
  interval_cases i <;>
    cases hp0 : probes 0 <;> cases hp1 : probes 1 <;> cases hp2 : probes 2 <;>
      simp_all

/-- C6 amended: the credential-health job sends exactly three admin
alerts, each annotated with the new round number, on **every** round in
which all three probes fail and the final failure is classified as
cookie-invalid — the declared threshold `_cookie_fail_threshold = 5` is
never consulted; a round whose final failure is classified as a service
error sends no alert and leaves the round counter unchanged; and a
round in which some probe succeeds sends at most the recovery alert,
never a credential alert. -/
theorem c6_amended_alerts_every_confirmed_round
    (probes : Nat → CookieCheck) (failCount : Nat) :
    ((∀ i, i < 3 → probes i ≠ CookieCheck.valid) →
      probes 2 = CookieCheck.invalidCookie →
      check_cookie_task probes failCount =
        (failCount + 1,
         [AdminAlert.cookieInvalid (failCount + 1) 1,
          AdminAlert.cookieInvalid (failCount + 1) 2,
          AdminAlert.cookieInvalid (failCount + 1) 3])) ∧
    ((∀ i, i < 3 → probes i ≠ CookieCheck.valid) →
      probes 2 = CookieCheck.serviceError →
      check_cookie_task probes failCount = (failCount, [])) ∧
    (∀ i, i < 3 → probes i = CookieCheck.valid →
      ∀ a ∈ (check_cookie_task probes failCount).2, a = AdminAlert.cookieRecovered) := by
  refine ⟨?_, ?_, ?_⟩
  · intro hfail hlast
    simp only [check_cookie_task]
    rw [runProbes_all_fail probes hfail, hlast]
    rfl
  · intro hfail hlast
    simp only [check_cookie_task]
    rw [runProbes_all_fail probes hfail, hlast]
    rfl
  · intro i hi hv a ha
    have hne := runProbes_fst_ne_three probes i hi hv
    simp only [check_cookie_task] at ha
    rw [if_neg hne] at ha
    by_cases hc : 0 < failCount
    · rw [if_pos hc] at ha
      simpa using ha
    · rw [if_neg hc] at ha
      cases ha

/-- Witness for the amended C6, exercising all three behaviours at
round counter 3 (a value the original claim says is alert-free): a
confirmed cookie-invalid round sends three alerts, a service-error
round sends none, and a round with a successful probe sends only the
recovery alert. -/
theorem c6_amended_alerts_every_confirmed_round_witness :
    (check_cookie_task (fun _ => CookieCheck.invalidCookie) 3 =
      (4, [AdminAlert.cookieInvalid 4 1, AdminAlert.cookieInvalid 4 2,
           AdminAlert.cookieInvalid 4 3])) ∧
    (check_cookie_task (fun _ => CookieCheck.serviceError) 3 = (3, [])) ∧
    (∀ a ∈ (check_cookie_task (fun _ => CookieCheck.valid) 3).2,
      a = AdminAlert.cookieRecovered) :=
  ⟨(c6_amended_alerts_every_confirmed_round (fun _ => CookieCheck.invalidCookie) 3).1
      (fun _ _ => by decide) rfl,
   (c6_amended_alerts_every_confirmed_round (fun _ => CookieCheck.serviceError) 3).2.1
      (fun _ _ => by decide) rfl,
   fun a ha =>
     (c6_amended_alerts_every_confirmed_round (fun _ => CookieCheck.valid) 3).2.2 0
       (by omega) rfl a ha⟩

/-- C3 counterexample: in the FlareSolverr chain, when attempt 1 fails
with a credential error, attempts 2-3 and the RSS fallback fail with
network errors, the propagated error is the network error of the last
attempt — not the first meaningful (credential) error. -/
theorem c3_counterexample_last_error_propagated :
    fetch_via_flaresolverr (P := List Post)
        (.error .credential) (.error .network) (.error .network) (.error .network)
      = .error FetchErr.network ∧
    FetchErr.network ≠ FetchErr.credential :=
  ⟨rfl, by decide⟩

/-- C3 amended: when every strategy fails, `DiscourseSource.fetch`
propagates the **last** error raised by the primary strategy — the
final FlareSolverr attempt's error, resp. the most recent direct-fetch
error in the DrissionPage path — and the degraded RSS fallback's own
error is discarded; the propagated error keeps its original
credential/network classification. -/
theorem c3_amended_last_error_propagated :
    (∀ e1 e2 e3 er : FetchErr,
        fetch_via_flaresolverr (P := List Post)
          (.error e1) (.error e2) (.error e3) (.error er) = .error e3) ∧
    (∀ e1 e2 e3 er : FetchErr,
        fetch_via_drissionpage (P := List Post) (.error .http403)
          [some (.error e1), some (.error e2), some (.error e3)] (.error er)
        = .error e3) :=
  ⟨fun _ _ _ _ => rfl, fun _ _ _ _ => rfl⟩

/-- The success verdict of `_send_with_retry` does not depend on the
database (the database is only written to mark blocked users). -/
theorem send_with_retry_fst (outs : List AttemptOutcome) (chatId : Int) (db : DB) :
    (send_with_retry outs chatId db).1 = retrySucceeds outs := by
  induction outs with
  | nil => rfl
  | cons o rest ih => cases o <;> simp [send_with_retry, retrySucceeds, ih]

/-- The retry loop `_send_with_retry` never touches the `notifications` table. -/
theorem send_with_retry_notifications (outs : List AttemptOutcome) (chatId : Int) (db : DB) :
    (send_with_retry outs chatId db).2.notifications = db.notifications := by
  induction outs with
  | nil => rfl
  | cons o rest ih =>
    cases o <;> simp [send_with_retry, mark_user_blocked, ih]
    by_cases hb : chatId ∈ db.blockedUsers <;> simp [hb]

/-- Membership in the `notifications` table after `add_notification`:
the new table holds exactly the old rows plus (possibly) the inserted
four-tuple. -/
theorem mem_add_notification (db : DB) (chat : Int) (pid kw forum : String) (rec : NotifRow) :
    rec ∈ (add_notification db chat pid kw forum).2.notifications ↔
      rec ∈ db.notifications ∨ rec = ⟨chat, pid, kw, forum⟩ := by
  by_cases h : notification_exists db chat pid kw forum
  · simp only [add_notification, if_pos h]
    constructor
    · exact fun hm => Or.inl hm
    · rintro (hm | rfl)
      · exact hm
      · simp only [notification_exists, List.any_eq_true] at h
        obtain ⟨r, hr, hmatch⟩ := h
        simp only [Bool.and_eq_true, beq_iff_eq] at hmatch
        obtain ⟨⟨⟨e1, e2⟩, e3⟩, e4⟩ := hmatch
        have : r = ⟨chat, pid, kw, forum⟩ := by
          cases r
          simp_all
        rw [← this]
        exact hr
  · simp [add_notification, if_neg h]


/-- C2: a notification record is persisted if and only if the send
succeeds.  After `_send_batch`, the `notifications` table holds exactly
the rows it held before plus the records of the tasks whose
`_send_with_retry` (at most 3 attempts; `Forbidden` and other platform
errors terminal, timeouts retried) returned `True`; a task whose send
fails creates no record. -/
theorem c2_send_batch_records_iff_success
    (behavior : Task → List AttemptOutcome) (forum : String) (db : DB)
    (tasks : List Task) (rec : NotifRow) :
    rec ∈ (send_batch behavior forum db tasks).2.notifications ↔
      rec ∈ db.notifications ∨
        ∃ t ∈ tasks, retrySucceeds ((behavior t).take 3) = true ∧ rec = task_record forum t := by
  induction tasks generalizing db with
  | nil => simp [send_batch]
  | cons t rest ih =>
    have hone : rec ∈ (send_one behavior forum db t).2.notifications ↔
        rec ∈ db.notifications ∨
          (retrySucceeds ((behavior t).take 3) = true ∧ rec = task_record forum t) := by
      by_cases hs : retrySucceeds ((behavior t).take 3)
      · have hf : (send_with_retry ((behavior t).take 3) t.chatId db).1 = true := by
          rw [send_with_retry_fst]; exact hs
        simp only [send_one, hf, if_pos]
        rw [mem_add_notification]
        rw [show ((send_with_retry ((behavior t).take 3) t.chatId db).2.notifications
              = db.notifications) from send_with_retry_notifications _ _ _]
        simp [task_record, hs]
      · have hf : (send_with_retry ((behavior t).take 3) t.chatId db).1 = false := by
          rw [send_with_retry_fst]
          exact Bool.not_eq_true _ ▸ by simpa using hs
        simp only [send_one, hf, Bool.false_eq_true, if_false]
        rw [send_with_retry_notifications]
        simp [hs]
    simp only [send_batch]
    rw [ih, hone]
    constructor
    · rintro ((hm | hrec) | ⟨t', ht', hp⟩)
      · exact Or.inl hm
      · exact Or.inr ⟨t, List.mem_cons_self t rest, hrec.1, hrec.2⟩
      · exact Or.inr ⟨t', List.mem_cons_of_mem t ht', hp⟩
    · rintro (hm | ⟨t', ht', hp⟩)
      · exact Or.inl (Or.inl hm)
      · rcases List.mem_cons.mp ht' with rfl | ht'
        · exact Or.inl (Or.inr hp)
        · exact Or.inr ⟨t', ht', hp⟩

/-! ### Planner lemmas -/


theorem tasksFor_append (chat : Int) (a b : List Task) :
    tasksFor chat (a ++ b) = tasksFor chat a ++ tasksFor chat b :=
  List.filter_append _ _

/-- The operation `add_post` never touches the `notifications` table. -/
theorem add_post_notifications (db : DB) (p : Post) (forum : String) :
    (add_post db p forum).2.notifications = db.notifications := by
  unfold add_post
  by_cases h : db.posts.any fun r => r.id == p.id && r.forum == forum <;> simp [h]

/-- The check `notification_exists_for_post` reads only the `notifications`
table. -/
theorem notification_exists_for_post_congr (db1 db2 : DB)
    (h : db1.notifications = db2.notifications) (chat : Int) (pid forum : String) :
    notification_exists_for_post db1 chat pid forum
      = notification_exists_for_post db2 chat pid forum := by
  unfold notification_exists_for_post
  rw [h]

/-- The set `notified_users` after the subscribe-all loop: the starting set plus
every subscriber of the list. -/
theorem subAllLoop_notified_mem (ex : Int → Bool) (post : Post) :
    ∀ (l notified : List Int) (acc : List Task) (x : Int),
      x ∈ (subAllLoop ex post l notified acc).1 ↔ x ∈ notified ∨ x ∈ l := by
  intro l
  induction l with
  | nil => intro notified acc x; simp [subAllLoop]
  | cons c rest ih =>
    intro notified acc x
    by_cases h : ex c = true
    · rw [subAllLoop, if_pos h, ih]
      simp [List.mem_cons]
      tauto
    · rw [subAllLoop, if_neg h, ih]
      simp [List.mem_cons]
      tauto

/-- The subscribe-all loop (`app.py` lines 434-440) appends, for a given
subscriber, exactly one task when the subscriber is in the
(duplicate-free) list and has no persisted record, and none
otherwise. -/
theorem subAllLoop_tasksFor (ex : Int → Bool) (post : Post) (chat : Int) :
    ∀ (l : List Int), l.Nodup → ∀ (notified : List Int) (acc : List Task),
      tasksFor chat (subAllLoop ex post l notified acc).2 =
        tasksFor chat acc ++
          (if chat ∈ l ∧ ex chat = false then [⟨chat, post, none⟩] else []) := by
  intro l
  induction l with
  | nil => intro _ notified acc; simp [subAllLoop]
  | cons c rest ih =>
    intro hnd notified acc
    obtain ⟨hcr, hrest⟩ := List.nodup_cons.mp hnd
    by_cases hex : ex c = true
    · rw [subAllLoop, if_pos hex, ih hrest]
      by_cases hc : chat = c
      · subst hc
        simp [hex]
      · simp [List.mem_cons, hc]
    · rw [subAllLoop, if_neg hex, ih hrest]
      by_cases hc : chat = c
      · subst hc
        rw [tasksFor_append]
        have h1 : tasksFor chat [⟨chat, post, none⟩] = [⟨chat, post, none⟩] := by
          simp [tasksFor]
        simp [h1, hcr, hex, List.mem_cons]
      · rw [tasksFor_append]
        have h0 : tasksFor chat [⟨c, post, none⟩] = [] := by
          simp [tasksFor, Ne.symm hc]
        simp [h0, List.mem_cons, hc]

/-- A subscriber outside the subscribe-all list receives no task from
the subscribe-all loop. -/
theorem subAllLoop_tasksFor_notMem (ex : Int → Bool) (post : Post) (chat : Int) :
    ∀ (l notified : List Int) (acc : List Task), chat ∉ l →
      tasksFor chat (subAllLoop ex post l notified acc).2 = tasksFor chat acc := by
  intro l
  induction l with
  | nil => intro notified acc _; simp [subAllLoop]
  | cons c rest ih =>
    intro notified acc hmem
    have hc : chat ≠ c := fun h => hmem (h ▸ List.mem_cons_self c rest)
    have hrest : chat ∉ rest := fun h => hmem (List.mem_cons_of_mem c h)
    by_cases hex : ex c = true
    · rw [subAllLoop, if_pos hex, ih _ _ hrest]
    · rw [subAllLoop, if_neg hex, ih _ _ hrest, tasksFor_append]
      have h0 : tasksFor chat [⟨c, post, none⟩] = [] := by
        simp [tasksFor, Ne.symm hc]
      simp [h0]

theorem int_contains_iff (l : List Int) (a : Int) : l.contains a = true ↔ a ∈ l :=
  List.elem_iff

/-- The set `notified_users` after an author/keyword subscriber loop: the
starting set plus every processed subscriber not in the subscribe-all
set. -/
theorem innerLoop_notified_mem (inSubAll ex : Int → Bool) (mk : Int → Task) :
    ∀ (l notified : List Int) (acc : List Task) (x : Int),
      x ∈ (innerLoop inSubAll ex mk l notified acc).1 ↔
        x ∈ notified ∨ (x ∈ l ∧ inSubAll x = false) := by
  intro l
  induction l with
  | nil => intro notified acc x; simp [innerLoop]
  | cons c rest ih =>
    intro notified acc x
    by_cases hn : c ∈ notified
    · rw [innerLoop, if_pos ((int_contains_iff _ _).mpr hn), ih]
      constructor
      · rintro (h | ⟨h1, h2⟩)
        · exact Or.inl h
        · exact Or.inr ⟨List.mem_cons_of_mem c h1, h2⟩
      · rintro (h | ⟨h1, h2⟩)
        · exact Or.inl h
        · rcases List.mem_cons.mp h1 with rfl | h1
          · exact Or.inl hn
          · exact Or.inr ⟨h1, h2⟩
    · have hnc : ¬(notified.contains c = true) := fun h => hn ((int_contains_iff _ _).mp h)
      rw [innerLoop, if_neg hnc]
      cases hs : inSubAll c with
      | true =>
        rw [if_pos rfl, ih]
        constructor
        · rintro (h | ⟨h1, h2⟩)
          · exact Or.inl h
          · exact Or.inr ⟨List.mem_cons_of_mem c h1, h2⟩
        · rintro (h | ⟨h1, h2⟩)
          · exact Or.inl h
          · rcases List.mem_cons.mp h1 with rfl | h1
            · rw [hs] at h2; cases h2
            · exact Or.inr ⟨h1, h2⟩
      | false =>
        rw [if_neg (by simp [hs])]
        have hmem : ∀ acc', x ∈ (innerLoop inSubAll ex mk rest (c :: notified) acc').1 ↔
            x ∈ notified ∨ (x ∈ c :: rest ∧ inSubAll x = false) := by
          intro acc'
          rw [ih]
          constructor
          · rintro (h | ⟨h1, h2⟩)
            · rcases List.mem_cons.mp h with rfl | h
              · exact Or.inr ⟨List.mem_cons_self _ _, hs⟩
              · exact Or.inl h
            · exact Or.inr ⟨List.mem_cons_of_mem c h1, h2⟩
          · rintro (h | ⟨h1, h2⟩)
            · exact Or.inl (List.mem_cons_of_mem c h)
            · rcases List.mem_cons.mp h1 with rfl | h1
              · exact Or.inl (List.mem_cons_self _ _)
              · exact Or.inr ⟨h1, h2⟩
        cases he : ex c with
        | true => rw [if_pos rfl]; exact hmem acc
        | false => rw [if_neg (by simp [he])]; exact hmem (acc ++ [mk c])

/-- An author/keyword subscriber loop appends, for a given subscriber,
exactly one `mk` task when the subscriber is in the list, not yet
notified, not a subscribe-all recipient and has no persisted record,
and nothing otherwise. -/
theorem innerLoop_tasksFor (inSubAll ex : Int → Bool) (mk : Int → Task) (chat : Int)
    (hmk : ∀ c, (mk c).chatId = c) :
    ∀ (l notified : List Int) (acc : List Task),
      tasksFor chat (innerLoop inSubAll ex mk l notified acc).2 =
        tasksFor chat acc ++
          (if chat ∈ l ∧ chat ∉ notified ∧ inSubAll chat = false ∧ ex chat = false
           then [mk chat] else []) := by
  intro l
  induction l with
  | nil => intro notified acc; simp [innerLoop]
  | cons c rest ih =>
    intro notified acc
    by_cases hn : c ∈ notified
    · rw [innerLoop, if_pos ((int_contains_iff _ _).mpr hn), ih]
      by_cases hc : chat = c
      · subst hc
        simp [hn]
      · simp [List.mem_cons, hc]
    · have hnc : ¬(notified.contains c = true) := fun h => hn ((int_contains_iff _ _).mp h)
      rw [innerLoop, if_neg hnc]
      cases hs : inSubAll c with
      | true =>
        rw [if_pos rfl, ih]
        by_cases hc : chat = c
        · subst hc
          simp [hs]
        · simp [List.mem_cons, hc]
      | false =>
        rw [if_neg (by simp [hs])]
        cases he : ex c with
        | true =>
          rw [if_pos rfl, ih]
          by_cases hc : chat = c
          · subst hc
            simp [he, List.mem_cons]
          · have : (chat ∉ c :: notified) ↔ chat ∉ notified := by
              simp [List.mem_cons, hc]
            simp [List.mem_cons, hc, this]
        | false =>
          rw [if_neg (by simp [he]), ih, tasksFor_append]
          by_cases hc : chat = c
          · subst hc
            have h1 : tasksFor chat [mk chat] = [mk chat] := by
              simp [tasksFor, hmk chat]
            have h2 : chat ∉ (chat :: notified) → False := fun h => h (List.mem_cons_self _ _)
            simp [h1, hn, hs, he, List.mem_cons]
          · have h0 : tasksFor chat [mk c] = [] := by
              simp [tasksFor, hmk c, Ne.symm hc]
            have : (chat ∉ c :: notified) ↔ chat ∉ notified := by
              simp [List.mem_cons, hc]
            simp [h0, List.mem_cons, hc, this]


theorem firstMatchTask_length_le (post : Post) (subs : String → List Int) (chat : Int)
    (l : List String) : (firstMatchTask post subs chat l).length ≤ 1 := by
  unfold firstMatchTask
  cases l.find? (fun kw => (subs kw).contains chat) <;> simp

theorem firstMatchTask_forall (post : Post) (subs : String → List Int) (chat : Int)
    (l : List String) : ∀ t ∈ firstMatchTask post subs chat l, t.post = post ∧ t.chatId = chat := by
  unfold firstMatchTask
  cases l.find? (fun kw => (subs kw).contains chat) <;> simp

/-- The set `notified_users` after the whole keyword stage loop. -/
theorem kwLoops_notified_mem (inSubAll ex : Int → Bool) (subs : String → List Int) (post : Post) :
    ∀ (l : List String) (notified : List Int) (acc : List Task) (x : Int),
      x ∈ (kwLoops inSubAll ex subs post l notified acc).1 ↔
        x ∈ notified ∨ (inSubAll x = false ∧ ∃ kw ∈ l, x ∈ subs kw) := by
  intro l
  induction l with
  | nil => intro notified acc x; simp [kwLoops]
  | cons kw rest ih =>
    intro notified acc x
    rw [kwLoops]
    rw [ih, innerLoop_notified_mem]
    constructor
    · rintro ((h | ⟨h1, h2⟩) | ⟨h1, kw', hkw', h2⟩)
      · exact Or.inl h
      · exact Or.inr ⟨h2, kw, List.mem_cons_self _ _, h1⟩
      · exact Or.inr ⟨h1, kw', List.mem_cons_of_mem kw hkw', h2⟩
    · rintro (h | ⟨h1, kw', hkw', h2⟩)
      · exact Or.inl (Or.inl h)
      · rcases List.mem_cons.mp hkw' with rfl | hkw'
        · exact Or.inl (Or.inr ⟨h2, h1⟩)
        · exact Or.inr ⟨h1, kw', hkw', h2⟩

/-- The keyword loops (`app.py` lines 464-480) append, for a given
subscriber, at most one task: the first matched keyword's task if the
subscriber is eligible at the start of the stage, nothing otherwise. -/
theorem kwLoops_tasksFor (inSubAll ex : Int → Bool) (subs : String → List Int) (post : Post)
    (chat : Int) :
    ∀ (l : List String) (notified : List Int) (acc : List Task),
      tasksFor chat (kwLoops inSubAll ex subs post l notified acc).2 =
        tasksFor chat acc ++
          (if chat ∉ notified ∧ inSubAll chat = false ∧ ex chat = false
           then firstMatchTask post subs chat l else []) := by
  intro l
  induction l with
  | nil =>
    intro notified acc
    rw [kwLoops]
    simp [firstMatchTask]
  | cons kw rest ih =>
    intro notified acc
    rw [kwLoops]
    rw [ih, innerLoop_tasksFor inSubAll ex _ chat (fun c => rfl)]
    by_cases hn : chat ∈ notified
    · have hn1 : chat ∈ (innerLoop inSubAll ex (fun c => ⟨c, post, some kw⟩)
          (subs kw) notified acc).1 := by
        rw [innerLoop_notified_mem]; exact Or.inl hn
      simp [hn, hn1]
    · cases hsub : inSubAll chat with
      | true => simp [hsub]
      | false =>
        cases hex : ex chat with
        | true => simp [hex]
        | false =>
          by_cases hkw : chat ∈ subs kw
          · have hn1 : chat ∈ (innerLoop inSubAll ex (fun c => ⟨c, post, some kw⟩)
                (subs kw) notified acc).1 := by
              rw [innerLoop_notified_mem]; exact Or.inr ⟨hkw, hsub⟩
            have hfind : (kw :: rest).find? (fun k => (subs k).contains chat) = some kw :=
              List.find?_cons_of_pos _ ((int_contains_iff _ _).mpr hkw)
            simp only [firstMatchTask, hfind]
            simp [hn, hsub, hex, hkw, hn1, List.append_assoc]
          · have hn1 : chat ∉ (innerLoop inSubAll ex (fun c => ⟨c, post, some kw⟩)
                (subs kw) notified acc).1 := by
              rw [innerLoop_notified_mem]
              rintro (h | ⟨h1, _⟩)
              · exact hn h
              · exact hkw h1
            have hfind : (kw :: rest).find? (fun k => (subs k).contains chat)
                = rest.find? (fun k => (subs k).contains chat) := by
              refine List.find?_cons_of_neg _ ?_
              simp only [Bool.not_eq_true]
              exact Bool.eq_false_iff.mpr fun h => hkw ((int_contains_iff _ _).mp h)
            simp only [firstMatchTask, hfind]
            simp [hn, hsub, hex, hkw, hn1, firstMatchTask]

/-- Existential summary of an author/keyword subscriber loop for one
subscriber: at most one appended task, only for an eligible subscriber,
who is afterwards in `notified_users`. -/
theorem innerLoop_spec (inSubAll ex : Int → Bool) (mk : Int → Task) (post : Post) (chat : Int)
    (hmk1 : ∀ c, (mk c).chatId = c) (hmk2 : (mk chat).post = post)
    (l notified : List Int) (acc : List Task) :
    ∃ a2 : List Task,
      tasksFor chat (innerLoop inSubAll ex mk l notified acc).2 = tasksFor chat acc ++ a2 ∧
      a2.length ≤ 1 ∧
      (∀ t ∈ a2, t.post = post ∧ t.chatId = chat) ∧
      (a2 ≠ [] → chat ∉ notified ∧ inSubAll chat = false ∧ ex chat = false) ∧
      (∀ x, x ∈ notified → x ∈ (innerLoop inSubAll ex mk l notified acc).1) ∧
      (a2 ≠ [] → chat ∈ (innerLoop inSubAll ex mk l notified acc).1) := by
  refine ⟨if chat ∈ l ∧ chat ∉ notified ∧ inSubAll chat = false ∧ ex chat = false
          then [mk chat] else [],
    innerLoop_tasksFor inSubAll ex mk chat hmk1 l notified acc, ?_, ?_, ?_, ?_, ?_⟩
  · by_cases hcond : chat ∈ l ∧ chat ∉ notified ∧ inSubAll chat = false ∧ ex chat = false <;>
      simp [hcond]
  · by_cases hcond : chat ∈ l ∧ chat ∉ notified ∧ inSubAll chat = false ∧ ex chat = false <;>
      simp [hcond]
    exact ⟨hmk2, hmk1 chat⟩
  · by_cases hcond : chat ∈ l ∧ chat ∉ notified ∧ inSubAll chat = false ∧ ex chat = false
    · exact fun _ => hcond.2
    · simp [hcond]
  · intro x hx
    rw [innerLoop_notified_mem]
    exact Or.inl hx
  · by_cases hcond : chat ∈ l ∧ chat ∉ notified ∧ inSubAll chat = false ∧ ex chat = false
    · intro _
      rw [innerLoop_notified_mem]
      exact Or.inr ⟨hcond.1, hcond.2.2.1⟩
    · simp [hcond]

/-- Existential summary of the author stage for one subscriber. -/
theorem authorStage_spec (env : Env) (inSubAll ex : Int → Bool) (post : Post) (chat : Int)
    (s : List Int × List Task) :
    ∃ a2 : List Task,
      tasksFor chat (authorStage env inSubAll ex post s).2 = tasksFor chat s.2 ++ a2 ∧
      a2.length ≤ 1 ∧
      (∀ t ∈ a2, t.post = post ∧ t.chatId = chat) ∧
      (a2 ≠ [] → chat ∉ s.1 ∧ inSubAll chat = false ∧ ex chat = false) ∧
      (∀ x, x ∈ s.1 → x ∈ (authorStage env inSubAll ex post s).1) ∧
      (a2 ≠ [] → chat ∈ (authorStage env inSubAll ex post s).1) := by
  rcases hauth : post.author with _ | auth
  · simp only [authorStage, hauth]
    exact ⟨[], by simp, by simp, by simp, by simp, fun x hx => hx, by simp⟩
  · simp only [authorStage, hauth]
    by_cases hg : auth ≠ "" ∧ env.subscribedAuthors ≠ []
    · rw [if_pos hg]
      by_cases hc : (env.subscribedAuthors.map pyLower).contains (pyLower auth)
      · rw [if_pos hc]
        exact innerLoop_spec inSubAll ex _ post chat (fun c => rfl) rfl
          (env.authorSubscribers (pyLower auth)) s.1 s.2
      · rw [if_neg hc]
        exact ⟨[], by simp, by simp, by simp, by simp, fun x hx => hx, by simp⟩
    · rw [if_neg hg]
      exact ⟨[], by simp, by simp, by simp, by simp, fun x hx => hx, by simp⟩

/-- Existential summary of the keyword stage for one subscriber. -/
theorem keywordStage_spec (env : Env) (inSubAll ex : Int → Bool) (post : Post) (chat : Int)
    (s : List Int × List Task) :
    ∃ a3 : List Task,
      tasksFor chat (keywordStage env inSubAll ex post s).2 = tasksFor chat s.2 ++ a3 ∧
      a3.length ≤ 1 ∧
      (∀ t ∈ a3, t.post = post ∧ t.chatId = chat) ∧
      (a3 ≠ [] → chat ∉ s.1 ∧ inSubAll chat = false ∧ ex chat = false) := by
  unfold keywordStage
  by_cases hk : env.keywords ≠ []
  · rw [if_pos hk]
    refine ⟨if chat ∉ s.1 ∧ inSubAll chat = false ∧ ex chat = false
            then firstMatchTask post env.keywordSubscribers chat
              (find_matching_keywords env.oracle post env.keywords) else [],
      kwLoops_tasksFor inSubAll ex env.keywordSubscribers post chat _ s.1 s.2, ?_, ?_, ?_⟩
    · by_cases hcond : chat ∉ s.1 ∧ inSubAll chat = false ∧ ex chat = false
      · rw [if_pos hcond]
        exact firstMatchTask_length_le _ _ _ _
      · simp [hcond]
    · by_cases hcond : chat ∉ s.1 ∧ inSubAll chat = false ∧ ex chat = false
      · rw [if_pos hcond]
        exact firstMatchTask_forall _ _ _ _
      · simp [hcond]
    · by_cases hcond : chat ∉ s.1 ∧ inSubAll chat = false ∧ ex chat = false
      · exact fun _ => hcond
      · simp [hcond]
  · rw [if_neg hk]
    exact ⟨[], by simp, by simp, by simp, by simp⟩

/-- The persisted post row of `add_post` makes `post_exists` true. -/
theorem add_post_post_exists (db : DB) (p : Post) (forum : String) :
    post_exists (add_post db p forum).2 p.id forum = true := by
  unfold add_post post_exists
  by_cases h : db.posts.any fun r => r.id == p.id && r.forum == forum
  · simp [h]
  · simp [h, List.any_append]

/-- The operation `add_post` only grows the `posts` table. -/
theorem add_post_mono (db : DB) (p : Post) (forum pid f : String)
    (h : post_exists db pid f = true) :
    post_exists (add_post db p forum).2 pid f = true := by
  unfold post_exists at h
  unfold add_post post_exists
  by_cases hc : db.posts.any fun r => r.id == p.id && r.forum == forum
  · simpa [hc] using h
  · simp [hc, List.any_append, h]

/-- Database facts about `processPost`: the `notifications` table is
untouched, the processed post is persisted afterwards, and persisted
posts stay persisted. -/
theorem processPost_db (env : Env) (forum : String) (db : DB) (post : Post)
    (pending : List Task) :
    (processPost env forum db post pending).1.notifications = db.notifications ∧
    post_exists (processPost env forum db post pending).1 post.id forum = true ∧
    (∀ pid f, post_exists db pid f = true →
      post_exists (processPost env forum db post pending).1 pid f = true) := by
  by_cases hpe : post_exists db post.id forum = true
  · simp only [processPost, if_pos hpe]
    exact ⟨by trivial, hpe, fun pid f h => h⟩
  · simp only [processPost, if_neg hpe]
    exact ⟨add_post_notifications db post forum, add_post_post_exists db post forum,
      fun pid f h => add_post_mono db post forum pid f h⟩

/-- The function `processPost` unfolded in the new-post case. -/
theorem processPost_eq (env : Env) (forum : String) (db : DB) (post : Post)
    (pending : List Task) (hpe : ¬post_exists db post.id forum = true) :
    processPost env forum db post pending =
      ((add_post db post forum).2,
        (keywordStage env (fun c => env.subscribeAllUsers.contains c)
          (fun c => notification_exists_for_post (add_post db post forum).2 c post.id forum) post
          (authorStage env (fun c => env.subscribeAllUsers.contains c)
            (fun c => notification_exists_for_post (add_post db post forum).2 c post.id forum)
            post
            (subAllLoop
              (fun c => notification_exists_for_post (add_post db post forum).2 c post.id forum)
              post env.subscribeAllUsers [] pending))).2) := by
  rw [processPost, if_neg hpe]

/-- Existential summary of `processPost` for one subscriber: at most one
task is appended for the pair `(chat, post)`, none when a persisted
record for the pair exists, none when the post is already known, and
every appended task is about this post. -/
theorem processPost_spec (env : Env) (forum : String) (db : DB) (post : Post)
    (pending : List Task) (chat : Int) (hNodup : env.subscribeAllUsers.Nodup) :
    ∃ added : List Task,
      tasksFor chat (processPost env forum db post pending).2 = tasksFor chat pending ++ added ∧
      added.length ≤ 1 ∧
      (∀ t ∈ added, t.post = post) ∧
      (notification_exists_for_post db chat post.id forum = true → added = []) ∧
      (post_exists db post.id forum = true → added = []) := by
  by_cases hpe : post_exists db post.id forum = true
  · refine ⟨[], ?_, by simp, by simp, fun _ => rfl, fun _ => rfl⟩
    simp [processPost, hpe]
  · rw [processPost_eq env forum db post pending hpe]
    dsimp only
    set ex := fun c => notification_exists_for_post (add_post db post forum).2 c post.id forum
      with hex_def
    set sub := fun c => env.subscribeAllUsers.contains c with hsub_def
    set s1 := subAllLoop ex post env.subscribeAllUsers [] pending with hs1_def
    set s2 := authorStage env sub ex post s1 with hs2_def
    have hexdb : ex chat = notification_exists_for_post db chat post.id forum := by
      rw [hex_def]
      exact notification_exists_for_post_congr _ _ (add_post_notifications db post forum)
        chat post.id forum
    obtain ⟨a2, ha2, ha2len, ha2all, ha2cond, ha2mono, ha2mem⟩ :=
      authorStage_spec env sub ex post chat s1
    obtain ⟨a3, ha3, ha3len, ha3all, ha3cond⟩ := keywordStage_spec env sub ex post chat s2
    have hA1 := subAllLoop_tasksFor ex post chat env.subscribeAllUsers hNodup [] pending
    refine ⟨(if chat ∈ env.subscribeAllUsers ∧ ex chat = false
             then [(⟨chat, post, none⟩ : Task)] else []) ++ a2 ++ a3, ?_, ?_, ?_, ?_,
            fun h => absurd h hpe⟩
    · rw [ha3, hs2_def, ha2, hs1_def, hA1]
      simp [List.append_assoc]
    · by_cases hA1e : chat ∈ env.subscribeAllUsers ∧ ex chat = false
      · have hs1mem : chat ∈ s1.1 := by
          rw [hs1_def, subAllLoop_notified_mem]
          exact Or.inr hA1e.1
        have ha2nil : a2 = [] := by
          by_contra hne
          exact (ha2cond hne).1 hs1mem
        have hs2mem : chat ∈ s2.1 := ha2mono chat hs1mem
        have ha3nil : a3 = [] := by
          by_contra hne
          exact (ha3cond hne).1 hs2mem
        simp [hA1e, ha2nil, ha3nil]
      · by_cases ha2e : a2 = []
        · have h3 := ha3len
          simp [hA1e, ha2e]
          omega
        · have hs2mem : chat ∈ s2.1 := ha2mem ha2e
          have ha3nil : a3 = [] := by
            by_contra hne
            exact (ha3cond hne).1 hs2mem
          have h2 := ha2len
          simp [hA1e, ha3nil]
          omega
    · intro t ht
      rcases List.mem_append.mp ht with ht12 | ht3
      · rcases List.mem_append.mp ht12 with ht1 | ht2
        · by_cases hA1e : chat ∈ env.subscribeAllUsers ∧ ex chat = false
          · rw [if_pos hA1e] at ht1
            rcases List.mem_singleton.mp ht1 with rfl
            rfl
          · rw [if_neg hA1e] at ht1
            cases ht1
        · exact (ha2all t ht2).1
      · exact (ha3all t ht3).1
    · intro hnotif
      have hextrue : ex chat = true := by rw [hexdb]; exact hnotif
      have ha2nil : a2 = [] := by
        by_contra hne
        exact absurd (ha2cond hne).2.2 (by simp [hextrue])
      have ha3nil : a3 = [] := by
        by_contra hne
        exact absurd (ha3cond hne).2.2 (by simp [hextrue])
      simp [hextrue, ha2nil, ha3nil]

theorem countFor_decomp (chat : Int) (pid : String) (ts pending added : List Task)
    (h : tasksFor chat ts = tasksFor chat pending ++ added) :
    countFor chat pid ts =
      countFor chat pid pending + (added.filter fun t => t.post.id == pid).length := by
  unfold countFor
  rw [h, List.filter_append, List.length_append]

theorem filter_post_ne (added : List Task) (post : Post) (pid : String)
    (hall : ∀ t ∈ added, t.post = post) (hne : pid ≠ post.id) :
    (added.filter fun t => t.post.id == pid) = [] := by
  rw [List.filter_eq_nil_iff]
  intro t ht
  rw [hall t ht]
  simp [Ne.symm hne]

/-- Invariant of the planning fold: pairs `(chat, post id)` receive at
most one task overall, pairs with a persisted notification record
receive none, and the fold never writes the `notifications` table. -/
theorem plan_spec (env : Env) (forum : String) (hNodup : env.subscribeAllUsers.Nodup) :
    ∀ (posts : List Post) (db : DB) (pending : List Task),
      (∀ chat pid, countFor chat pid pending ≤ 1) →
      (∀ chat pid, 0 < countFor chat pid pending → post_exists db pid forum = true) →
      (∀ chat pid, notification_exists_for_post db chat pid forum = true →
        countFor chat pid pending = 0) →
      (∀ chat pid,
        countFor chat pid (fetch_and_notify_plan env forum db posts pending).2 ≤ 1 ∧
        (notification_exists_for_post db chat pid forum = true →
          countFor chat pid (fetch_and_notify_plan env forum db posts pending).2 = 0)) ∧
      (fetch_and_notify_plan env forum db posts pending).1.notifications = db.notifications := by
  intro posts
  induction posts with
  | nil =>
    intro db pending h1 h2 h3
    simp only [fetch_and_notify_plan]
    exact ⟨fun chat pid => ⟨h1 chat pid, h3 chat pid⟩, by trivial⟩
  | cons p rest ih =>
    intro db pending h1 h2 h3
    simp only [fetch_and_notify_plan]
    obtain ⟨hnotifs, hpexists, hmono⟩ := processPost_db env forum db p pending
    have key : ∀ chat pid,
        countFor chat pid (processPost env forum db p pending).2 ≤ 1 ∧
        (0 < countFor chat pid (processPost env forum db p pending).2 →
          post_exists (processPost env forum db p pending).1 pid forum = true) ∧
        (notification_exists_for_post (processPost env forum db p pending).1 chat pid forum
            = true →
          countFor chat pid (processPost env forum db p pending).2 = 0) := by
      intro chat pid
      obtain ⟨added, htasks, hlen, hall, hnotif0, hskip⟩ :=
        processPost_spec env forum db p pending chat hNodup
      have hcount := countFor_decomp chat pid _ pending added htasks
      have hnotifeq :
          notification_exists_for_post (processPost env forum db p pending).1 chat pid forum
            = notification_exists_for_post db chat pid forum :=
        notification_exists_for_post_congr _ _ hnotifs chat pid forum
      by_cases hpid : pid = p.id
      · subst hpid
        by_cases hpe : post_exists db p.id forum = true
        · have haddnil : added = [] := hskip hpe
          rw [haddnil] at hcount
          simp only [List.filter_nil, List.length_nil, Nat.add_zero] at hcount
          refine ⟨?_, fun _ => hpexists, ?_⟩
          · rw [hcount]; exact h1 chat p.id
          · intro hn
            rw [hnotifeq] at hn
            rw [hcount]
            exact h3 chat p.id hn
        · have hzero : countFor chat p.id pending = 0 := by
            by_contra hz
            exact hpe (h2 chat p.id (Nat.pos_of_ne_zero hz))
          refine ⟨?_, fun _ => hpexists, ?_⟩
          · rw [hcount, hzero]
            have hf := List.length_filter_le (fun t => t.post.id == p.id) added
            omega
          · intro hn
            rw [hnotifeq] at hn
            have haddnil : added = [] := hnotif0 hn
            rw [hcount, hzero, haddnil]
            simp
      · have hfilnil : (added.filter fun t => t.post.id == pid) = [] :=
          filter_post_ne added p pid hall hpid
        rw [hfilnil] at hcount
        simp only [List.length_nil, Nat.add_zero] at hcount
        refine ⟨?_, ?_, ?_⟩
        · rw [hcount]; exact h1 chat pid
        · intro hpos
          rw [hcount] at hpos
          exact hmono pid forum (h2 chat pid hpos)
        · intro hn
          rw [hnotifeq] at hn
          rw [hcount]
          exact h3 chat pid hn
    have hres := ih (processPost env forum db p pending).1 (processPost env forum db p pending).2
      (fun chat pid => (key chat pid).1) (fun chat pid => (key chat pid).2.1)
      (fun chat pid => (key chat pid).2.2)
    refine ⟨fun chat pid => ⟨(hres.1 chat pid).1, ?_⟩, ?_⟩
    · intro hn
      apply (hres.1 chat pid).2
      rw [notification_exists_for_post_congr _ _ hnotifs chat pid forum]
      exact hn
    · rw [hres.2, hnotifs]

/-- C1: within one fetch cycle, the planner emits at most one delivery
task per `(subscriber, post)` pair, whatever mix of subscribe-all,
author and keyword subscriptions matches (the subscribe-all list is
duplicate-free, as its table's primary key guarantees), and emits no
task for a pair with a persisted notification record. -/
theorem c1_at_most_one_task_per_subscriber_post (env : Env) (forum : String) (db : DB)
    (posts : List Post) (chat : Int) (pid : String)
    (hNodup : env.subscribeAllUsers.Nodup) :
    countFor chat pid (fetch_and_notify_plan env forum db posts []).2 ≤ 1 ∧
    (notification_exists_for_post db chat pid forum = true →
      countFor chat pid (fetch_and_notify_plan env forum db posts []).2 = 0) :=
  (plan_spec env forum hNodup posts db [] (fun _ _ => Nat.zero_le 1)
    (fun _ _ h => absurd h (Nat.lt_irrefl 0)) (fun _ _ _ => rfl)).1 chat pid

/-- Witness for C1: a subscribe-all subscriber, an author subscriber and
a keyword subscriber on one fresh post. -/
theorem c1_at_most_one_task_per_subscriber_post_witness :
    ([1, 2] : List Int).Nodup ∧
    countFor 1 "p1"
      (fetch_and_notify_plan
        ⟨⟨fun _ => true, fun _ _ => some true⟩, ["gpt"], [1, 2], ["neo"],
          fun _ => [1, 3], fun _ => [1, 3]⟩ "f" ⟨[], [], []⟩
        [⟨"p1", "gpt post", "l", "d", some "neo"⟩] []).2 ≤ 1 ∧
    (notification_exists_for_post ⟨[], [], []⟩ 1 "p1" "f" = true →
      countFor 1 "p1"
        (fetch_and_notify_plan
          ⟨⟨fun _ => true, fun _ _ => some true⟩, ["gpt"], [1, 2], ["neo"],
            fun _ => [1, 3], fun _ => [1, 3]⟩ "f" ⟨[], [], []⟩
          [⟨"p1", "gpt post", "l", "d", some "neo"⟩] []).2 = 0) :=
  ⟨by decide,
    c1_at_most_one_task_per_subscriber_post
      ⟨⟨fun _ => true, fun _ _ => some true⟩, ["gpt"], [1, 2], ["neo"],
        fun _ => [1, 3], fun _ => [1, 3]⟩ "f" ⟨[], [], []⟩
      [⟨"p1", "gpt post", "l", "d", some "neo"⟩] 1 "p1" (by decide)⟩

/-- The planning fold is the identity when every fetched post is
already persisted. -/
theorem plan_skip_all (env : Env) (forum : String) :
    ∀ (posts : List Post) (db : DB) (pending : List Task),
      (∀ p ∈ posts, post_exists db p.id forum = true) →
      fetch_and_notify_plan env forum db posts pending = (db, pending) := by
  intro posts
  induction posts with
  | nil => intro db pending _; rfl
  | cons p rest ih =>
    intro db pending h
    have hpe : post_exists db p.id forum = true := h p (List.mem_cons_self _ _)
    simp only [fetch_and_notify_plan]
    have hskip : processPost env forum db p pending = (db, pending) := by
      simp [processPost, hpe]
    rw [hskip]
    exact ih db pending fun q hq => h q (List.mem_cons_of_mem p hq)

/-- C4: fetch-cycle processing is idempotent over seen posts — when
every fetched post id is already in the tenant's `posts` store, the
planner emits zero delivery tasks and leaves the database unchanged. -/
theorem c4_refetch_is_idempotent (env : Env) (forum : String) (db : DB) (posts : List Post)
    (h : ∀ p ∈ posts, post_exists db p.id forum = true) :
    fetch_and_notify_plan env forum db posts [] = (db, []) :=
  plan_skip_all env forum posts db [] h

/-- Witness for C4: re-processing a snapshot whose only post is already
stored. -/
theorem c4_refetch_is_idempotent_witness :
    (∀ p ∈ [(⟨"p1", "t2", "l2", "d2", none⟩ : Post)],
      post_exists ⟨[⟨"p1", "f", "t", "l", "d", none⟩], [], []⟩ p.id "f" = true) ∧
    fetch_and_notify_plan
      ⟨⟨fun _ => true, fun _ _ => some true⟩, ["gpt"], [1], ["neo"],
        fun _ => [2], fun _ => [3]⟩ "f"
      ⟨[⟨"p1", "f", "t", "l", "d", none⟩], [], []⟩
      [⟨"p1", "t2", "l2", "d2", none⟩] [] =
      (⟨[⟨"p1", "f", "t", "l", "d", none⟩], [], []⟩, []) :=
  ⟨by decide,
    c4_refetch_is_idempotent
      ⟨⟨fun _ => true, fun _ _ => some true⟩, ["gpt"], [1], ["neo"],
        fun _ => [2], fun _ => [3]⟩ "f"
      ⟨[⟨"p1", "f", "t", "l", "d", none⟩], [], []⟩
      [⟨"p1", "t2", "l2", "d2", none⟩] (by decide)⟩

/-- C5: reasons are assigned in the fixed priority order
subscribe-all, author, keyword, first match winning per subscriber: a
subscriber who is not subscribe-all but is subscribed both to the
post's author and to a keyword matching its title receives exactly one
task, whose reason is the author subscription `"@" ++ author`, not the
keyword. -/
theorem c5_author_priority_over_keyword (env : Env) (forum : String) (db : DB) (post : Post)
    (auth : String) (chat : Int) (kw : String)
    (hauth : post.author = some auth) (hne : auth ≠ "")
    (hsa : env.subscribedAuthors ≠ [])
    (hlow : pyLower auth ∈ env.subscribedAuthors.map pyLower)
    (hnotAll : chat ∉ env.subscribeAllUsers)
    (hAuthSub : chat ∈ env.authorSubscribers (pyLower auth))
    (hkw : kw ∈ env.keywords)
    (_hmatch : matcherMatch env.oracle post kw = true)
    (_hKwSub : chat ∈ env.keywordSubscribers kw)
    (hnotif : notification_exists_for_post db chat post.id forum = false)
    (hnew : post_exists db post.id forum = false) :
    tasksFor chat (processPost env forum db post []).2 = [⟨chat, post, some ("@" ++ auth)⟩] := by
  have hpe : ¬post_exists db post.id forum = true := by simp [hnew]
  rw [processPost_eq env forum db post [] hpe]
  dsimp only
  set ex := fun c => notification_exists_for_post (add_post db post forum).2 c post.id forum
    with hex_def
  set sub := fun c => env.subscribeAllUsers.contains c with hsub_def
  set s1 := subAllLoop ex post env.subscribeAllUsers [] [] with hs1_def
  have hexchat : ex chat = false := by
    rw [hex_def]
    show notification_exists_for_post (add_post db post forum).2 chat post.id forum = false
    rw [notification_exists_for_post_congr _ _ (add_post_notifications db post forum)
      chat post.id forum]
    exact hnotif
  have hsubchat : sub chat = false := by
    rw [hsub_def]
    show env.subscribeAllUsers.contains chat = false
    exact Bool.eq_false_iff.mpr fun hc => hnotAll ((int_contains_iff _ _).mp hc)
  have hs1tasks : tasksFor chat s1.2 = [] := by
    rw [hs1_def, subAllLoop_tasksFor_notMem ex post chat env.subscribeAllUsers [] [] hnotAll]
    rfl
  have hs1mem : chat ∉ s1.1 := by
    rw [hs1_def, subAllLoop_notified_mem]
    rintro (h | h)
    · cases h
    · exact hnotAll h
  have hcontains : (env.subscribedAuthors.map pyLower).contains (pyLower auth) = true :=
    List.elem_iff.mpr hlow
  have hs2eq : authorStage env sub ex post s1 =
      innerLoop sub ex (fun c => ⟨c, post, some ("@" ++ auth)⟩)
        (env.authorSubscribers (pyLower auth)) s1.1 s1.2 := by
    simp only [authorStage, hauth]
    rw [if_pos ⟨hne, hsa⟩, if_pos hcontains]
  have hs2tasks : tasksFor chat (authorStage env sub ex post s1).2 =
      [⟨chat, post, some ("@" ++ auth)⟩] := by
    rw [hs2eq, innerLoop_tasksFor sub ex _ chat (fun c => rfl), hs1tasks,
      if_pos ⟨hAuthSub, hs1mem, hsubchat, hexchat⟩]
    rfl
  have hs2mem : chat ∈ (authorStage env sub ex post s1).1 := by
    rw [hs2eq, innerLoop_notified_mem]
    exact Or.inr ⟨hAuthSub, hsubchat⟩
  have hknil : env.keywords ≠ [] := by
    intro h
    rw [h] at hkw
    cases hkw
  unfold keywordStage
  rw [if_pos hknil, kwLoops_tasksFor,
    if_neg (fun hcond => hcond.1 hs2mem), hs2tasks]
  rfl

/-- Witness for C5: subscriber 7 subscribes to author `"neo"` and to
keyword `"gpt"`; the post is by `"neo"` with `"gpt"` in the title; one
author task results. -/
theorem c5_author_priority_over_keyword_witness :
    tasksFor 7
      (processPost
        ⟨⟨fun _ => true, fun _ _ => some true⟩, ["gpt"], [], ["neo"],
          (fun a => if a = "neo" then [7] else []),
          (fun k => if k = "gpt" then [7] else [])⟩ "f" ⟨[], [], []⟩
        ⟨"p1", "gpt release", "l", "d", some "neo"⟩ []).2 =
      [⟨7, ⟨"p1", "gpt release", "l", "d", some "neo"⟩, some "@neo"⟩] :=
  c5_author_priority_over_keyword
    ⟨⟨fun _ => true, fun _ _ => some true⟩, ["gpt"], [], ["neo"],
      (fun a => if a = "neo" then [7] else []),
      (fun k => if k = "gpt" then [7] else [])⟩ "f" ⟨[], [], []⟩
    ⟨"p1", "gpt release", "l", "d", some "neo"⟩ "neo" 7 "gpt"
    (by decide) (by decide) (by decide) (by decide) (by decide) (by decide)
    (by decide) (by decide) (by decide) (by decide) (by decide)

end LinuxdoMonitor
